import Mathlib

/-!
# Verification of the rs-kepler physics core

A shallow embedding of the rs-kepler simulation core (src/maths.rs,
src/physics.rs and the `Situation` model of src/main.rs) together with
theorems settling the specification claims.

Modelling conventions:
* `f64` values are idealised as real numbers (`ℝ`); the structure of every
  computation (order of operations, which formula is used) is preserved
  exactly from the source.  `powf` becomes `Real.rpow`, `hypot dx dy`
  becomes `Real.sqrt (dx^2 + dy^2)`.
* `u32`/`u64`/`usize` counters are modelled as `Nat`; the `updates` counter
  and mark ages stay far below the wrap-around range in all behaviour the
  claims quantify over, and no claim is about wrap-around.
* In-place mutation becomes explicit state passing.  The body loop of
  `Situation::update` mutates `self.bodies[i]` while reading the other
  entries of the same vector (the split-at pattern); this is embedded as a
  fold over `List.range` carrying the current `(bodies, marks)` state, so
  that — exactly as in the source — the pull on body `i` reads the already
  advanced positions of bodies `j < i` and the not yet advanced positions
  of bodies `j > i`.
* Rust's `Vec::push` is `· ++ [·]`, `Vec::retain p` is `List.filter p`.
* The partial indexing `self.bodies[tracked]` of `center_translation`
  (which panics when out of bounds) is embedded with `Option`: `none`
  models the panic.
-/

namespace RsKepler

/-- `GRAVITATIONAL_CONSTANT: f64 = 10.` (src/physics.rs line 4). -/
noncomputable def GRAVITATIONAL_CONSTANT : ℝ := 10

/-- `REFRESH_RATE: u32 = 50` (src/main.rs line 12). -/
def REFRESH_RATE : Nat := 50

/-- `TRAIL_HISTORY: u32 = 2000` (src/main.rs line 14). -/
def TRAIL_HISTORY : Nat := 2000

/-- `Coordinate {x: f64, y: f64}` (src/maths.rs). -/
@[ext] structure Coordinate where
  x : ℝ
  y : ℝ

/-- `EuclideanVector {dx: f64, dy: f64}` (src/maths.rs). -/
@[ext] structure EuclideanVector where
  dx : ℝ
  dy : ℝ

noncomputable instance : Add EuclideanVector :=
  ⟨fun a b => ⟨a.dx + b.dx, a.dy + b.dy⟩⟩

noncomputable instance : Sub EuclideanVector :=
  ⟨fun a b => ⟨a.dx - b.dx, a.dy - b.dy⟩⟩

noncomputable instance : Neg EuclideanVector :=
  ⟨fun v => ⟨-v.dx, -v.dy⟩⟩

/-- `impl Mul<f64> for EuclideanVector` (derive_more): componentwise scaling. -/
noncomputable instance : HMul EuclideanVector ℝ EuclideanVector :=
  ⟨fun v c => ⟨v.dx * c, v.dy * c⟩⟩

/-- `impl Div<f64> for EuclideanVector` (derive_more): componentwise division. -/
noncomputable instance : HDiv EuclideanVector ℝ EuclideanVector :=
  ⟨fun v c => ⟨v.dx / c, v.dy / c⟩⟩

/-- `impl AddAssign<EuclideanVector> for Coordinate` (src/maths.rs). -/
noncomputable instance : HAdd Coordinate EuclideanVector Coordinate :=
  ⟨fun p v => ⟨p.x + v.dx, p.y + v.dy⟩⟩

/-- `impl Sub for Coordinate` (src/maths.rs): difference is a vector. -/
noncomputable instance : HSub Coordinate Coordinate EuclideanVector :=
  ⟨fun a b => ⟨a.x - b.x, a.y - b.y⟩⟩

/-- `EuclideanVector::between(from, to)` (src/maths.rs). -/
noncomputable def EuclideanVector.between (from_ to_ : Coordinate) : EuclideanVector :=
  ⟨to_.x - from_.x, to_.y - from_.y⟩

/-- `EuclideanVector::magnitude` = `self.dx.hypot(self.dy)` (src/maths.rs). -/
noncomputable def EuclideanVector.magnitude (v : EuclideanVector) : ℝ :=
  Real.sqrt (v.dx ^ 2 + v.dy ^ 2)

/-- `EuclideanVector::versor` (src/maths.rs): componentwise division by the
magnitude. -/
noncomputable def EuclideanVector.versor (v : EuclideanVector) : EuclideanVector :=
  ⟨v.dx / v.magnitude, v.dy / v.magnitude⟩

/-- `EuclideanVector::towards(to)` (src/maths.rs). -/
noncomputable def EuclideanVector.towards (to_ : Coordinate) : EuclideanVector :=
  ⟨to_.x, to_.y⟩

/-- `Body` (src/physics.rs). -/
structure Body where
  name : String
  position : Coordinate
  mass : ℝ
  radius : ℝ
  velocity : EuclideanVector
  forces : List EuclideanVector
  highlighted : Bool

/-- `Body::DENSITY: f64 = 3.` (src/physics.rs). -/
def Body.DENSITY : ℝ := 3

/-- `Body::new()` (src/physics.rs). -/
def Body.new : Body :=
  { name := ""
    position := ⟨0, 0⟩
    mass := 0
    radius := 0
    velocity := ⟨0, 0⟩
    forces := []
    highlighted := false }

/-- `Body::at(arg)` (src/physics.rs; `at` is a Lean keyword, hence `atPos`). -/
def Body.atPos (b : Body) (arg : Coordinate) : Body :=
  { b with position := arg }

/-- `Body::moving(arg)` (src/physics.rs). -/
def Body.moving (b : Body) (arg : EuclideanVector) : Body :=
  { b with velocity := arg }

/-- `Body::named(arg)` (src/physics.rs). -/
def Body.named (b : Body) (arg : String) : Body :=
  { b with name := arg }

/-- `Body::with_mass(arg)` (src/physics.rs): sets the mass, then
`radius = ((3. / (4. * PI)) * (mass / DENSITY)).powf(0.33)`.  Note the
exponent in the source is the literal `0.33`, embedded as `Real.rpow` at
the exact rational `0.33`. -/
noncomputable def Body.with_mass (b : Body) (arg : ℝ) : Body :=
  let volume := arg / Body.DENSITY
  { b with mass := arg, radius := ((3 / (4 * Real.pi)) * volume) ^ (0.33 : ℝ) }

/-- `Body::update()` (src/physics.rs): `position += velocity` first, then
for each stored force in order `velocity += force / mass`.  The loop reads
`self.forces` and `self.mass`, neither of which it modifies, and does not
read `self.position`, so the sequential mutation is exactly this fold. -/
noncomputable def Body.update (b : Body) : Body :=
  let p := b.position + b.velocity
  let v := b.forces.foldl (fun (vel force : EuclideanVector) => vel + force / b.mass) b.velocity
  { b with position := p, velocity := v }

/-- `Body::pull_from(other)` (src/physics.rs). -/
noncomputable def Body.pull_from (b other : Body) : EuclideanVector :=
  let joining_vector := EuclideanVector.between b.position other.position
  let distance := joining_vector.magnitude
  joining_vector.versor * ((b.mass * other.mass) / (distance * distance)) * GRAVITATIONAL_CONSTANT

/-- `Body::add_pull_from(other)` (src/physics.rs): pushes the pull onto
`self.forces`. -/
noncomputable def Body.add_pull_from (b other : Body) : Body :=
  { b with forces := b.forces ++ [b.pull_from other] }

/-- `impl PartialEq for Body` (src/physics.rs lines 70-74): the body of
`eq` is `self == other`, which resolves to `PartialEq::eq` on `Body` again
(via the reference impl), i.e. the function calls itself unconditionally.
Embedded with explicit fuel: `none` models a call that has not returned
within `fuel` recursive steps. -/
def Body.eqFuel : Nat → Body → Body → Option Bool
  | 0, _, _ => none
  | fuel + 1, a, b => Body.eqFuel fuel a b

/-- `Mark {position: Coordinate, age: u32}` (src/main.rs). -/
structure Mark where
  position : Coordinate
  age : Nat

/-- `Mark::new(at)` (src/main.rs). -/
def Mark.new (c : Coordinate) : Mark :=
  ⟨c, 0⟩

/-- `Mark::update()` (src/main.rs): `age += 1`. -/
def Mark.update (m : Mark) : Mark :=
  { m with age := m.age + 1 }

/-- `Situation` (src/main.rs). -/
structure Situation where
  bodies : List Body
  marks : List Mark
  updates : Nat
  zoom_exponent : ℝ
  fullscreen : Bool
  paused : Bool
  translation : EuclideanVector
  drag_start : Coordinate
  tracked_body : Option Nat

/-- `Situation::new()` (src/main.rs). -/
def Situation.new : Situation :=
  { bodies := []
    marks := []
    updates := 0
    zoom_exponent := 0
    fullscreen := false
    paused := false
    translation := ⟨0, 0⟩
    drag_start := ⟨0, 0⟩
    tracked_body := none }

/-- `Situation::add(body)` (src/main.rs). -/
def Situation.add (s : Situation) (body : Body) : Situation :=
  { s with bodies := s.bodies ++ [body] }

/-- `Situation::with(body)` (src/main.rs; `with` is a Lean keyword, hence
`withBody`). -/
def Situation.withBody (s : Situation) (body : Body) : Situation :=
  s.add body

/-- One iteration of the body loop in `Situation::update` (src/main.rs
lines 209-226).  `st` is the current `(bodies, marks)` state; the slices
`head`/`tail` are the entries of the *current* vector other than `i`, so
bodies already processed this tick contribute their advanced positions. -/
noncomputable def Situation.tickBody (tracked : Option Nat) (makeMark : Bool)
    (st : List Body × List Mark) (i : Nat) : List Body × List Mark :=
  match st.1.get? i with
  | none => st
  | some b =>
    let b := b.update
    let b := { b with forces := [] }
    let others := st.1.take i ++ st.1.drop (i + 1)
    let b := others.foldl Body.add_pull_from b
    let marks := if makeMark then st.2 ++ [Mark.new b.position] else st.2
    let b := { b with highlighted := decide (tracked = some i) }
    (st.1.set i b, marks)

/-- `Situation::update()` (src/main.rs lines 206-233). -/
noncomputable def Situation.update (s : Situation) : Situation :=
  if s.paused then s
  else
    let makeMark := decide (s.updates % (REFRESH_RATE / 10) = 0)
    let st := (List.range s.bodies.length).foldl
      (Situation.tickBody s.tracked_body makeMark) (s.bodies, s.marks)
    let marks := (st.2.map Mark.update).filter (fun m => m.age < TRAIL_HISTORY)
    { s with bodies := st.1, marks := marks, updates := s.updates + 1 }

/-- `Situation::zoom_in()` (src/main.rs). -/
def Situation.zoom_in (s : Situation) : Situation :=
  { s with zoom_exponent := s.zoom_exponent + 0.25 }

/-- `Situation::zoom_out()` (src/main.rs). -/
def Situation.zoom_out (s : Situation) : Situation :=
  { s with zoom_exponent := s.zoom_exponent - 0.25 }

/-- `Situation::zoom_reset()` (src/main.rs). -/
def Situation.zoom_reset (s : Situation) : Situation :=
  { s with zoom_exponent := 0 }

/-- `Situation::zoom()` (src/main.rs): `2.0_f64.powf(self.zoom_exponent)`. -/
noncomputable def Situation.zoom (s : Situation) : ℝ :=
  (2 : ℝ) ^ s.zoom_exponent

/-- `Situation::track_next()` (src/main.rs lines 252-257). -/
def Situation.track_next (s : Situation) : Situation :=
  match s.tracked_body with
  | some tracked =>
    if tracked + 1 < s.bodies.length then { s with tracked_body := some (tracked + 1) }
    else { s with tracked_body := none }
  | none =>
    if s.bodies.isEmpty then s else { s with tracked_body := some 0 }

/-- `Situation::toggle_pause()` (src/main.rs). -/
def Situation.toggle_pause (s : Situation) : Situation :=
  { s with paused := !s.paused }

/-- `Situation::drag_started(window_position)` (src/main.rs). -/
def Situation.drag_started (s : Situation) (window_position : Coordinate) : Situation :=
  { s with drag_start := window_position }

/-- `Situation::dragging_to(window_position)` (src/main.rs). -/
noncomputable def Situation.dragging_to (s : Situation) (window_position : Coordinate) : Situation :=
  let delta := (window_position - s.drag_start) / s.zoom
  { s with translation := s.translation + delta, drag_start := window_position }

/-- `Situation::center_translation()` (src/main.rs lines 269-274).  The
source indexes `self.bodies[tracked]`, which panics when the index is out
of bounds; `none` models that panic. -/
noncomputable def Situation.center_translation (s : Situation) : Option EuclideanVector :=
  match s.tracked_body with
  | some tracked => (s.bodies.get? tracked).map (fun b => -(EuclideanVector.towards b.position))
  | none => some s.translation

/-- The mutations of a `Situation` available to the event loop of
src/main.rs (lines 452-481): construction helpers, the tick, and the view
mutators, including the arrow-key translation tweaks applied directly to
`model.translation`. -/
inductive SituationOp where
  | addBody (b : Body)
  | tick
  | zoomIn
  | zoomOut
  | zoomReset
  | trackNext
  | togglePause
  | dragStarted (c : Coordinate)
  | draggingTo (c : Coordinate)
  | scrollKey (v : EuclideanVector)

/-- Effect of one public-API mutation on the situation. -/
noncomputable def SituationOp.apply (s : Situation) : SituationOp → Situation
  | .addBody b => s.add b
  | .tick => s.update
  | .zoomIn => s.zoom_in
  | .zoomOut => s.zoom_out
  | .zoomReset => s.zoom_reset
  | .trackNext => s.track_next
  | .togglePause => s.toggle_pause
  | .dragStarted c => s.drag_started c
  | .draggingTo c => s.dragging_to c
  | .scrollKey v => { s with translation := s.translation + v }

/-- A sequence of public-API mutations, applied in order. -/
noncomputable def Situation.run (s : Situation) (ops : List SituationOp) : Situation :=
  ops.foldl (fun t op => op.apply t) s

/-- Invariant established by body `i` of the tick loop: the entry at `i`
holds a body whose force list was rebuilt to one pull per other body and
whose highlight flag mirrors the tracked index. -/
def tickInv (tracked : Option Nat) (N i : Nat) (st : List Body × List Mark) : Prop :=
  ∃ b : Body, st.1.get? i = some b ∧
    b.forces.length = N - 1 ∧
    b.highlighted = decide (tracked = some i)

/-- The tracked-body index, when present, is within the body list. -/
def Situation.trackedInBounds (s : Situation) : Prop :=
  ∀ i, s.tracked_body = some i → i < s.bodies.length

/-- Concrete paused situation, input for the C4 witness. -/
def pausedSituation : Situation :=
  { Situation.new with paused := true }

/-- Concrete body at the origin with mass 1, input for the C3 witness. -/
def bodyAtOrigin : Body :=
  { Body.new with mass := 1 }

/-- Concrete body at `(3, 4)` with mass 2, input for the C3 witness. -/
def bodyAtThreeFour : Body :=
  { Body.new with mass := 2, position := ⟨3, 4⟩ }

/-- Concrete two-body situation, input for the C5 witness. -/
def twoBodySituation : Situation :=
  (Situation.new.withBody Body.new).withBody Body.new

/-- Concrete three-body situation, input for the C8 witness. -/
def threeBodySituation : Situation :=
  ((Situation.new.withBody Body.new).withBody Body.new).withBody Body.new

/-- Concrete situation tracking its single body, input for the C10 witness. -/
def trackedSituation : Situation :=
  { Situation.new with bodies := [Body.new], tracked_body := some 0 }

/-- Concrete situation with no bodies and one mark of age 5, input for the
C9 witness. -/
def markedSituation : Situation :=
  { Situation.new with marks := [⟨⟨0, 0⟩, 5⟩] }

/-- Concrete mutation sequence, input for the C7 witness. -/
def opsForWitness : List SituationOp :=
  [SituationOp.addBody Body.new, SituationOp.trackNext]

@[simp] theorem EuclideanVector.add_dx (a b : EuclideanVector) : (a + b).dx = a.dx + b.dx := rfl
@[simp] theorem EuclideanVector.add_dy (a b : EuclideanVector) : (a + b).dy = a.dy + b.dy := rfl
@[simp] theorem EuclideanVector.mul_dx (v : EuclideanVector) (c : ℝ) : (v * c).dx = v.dx * c := rfl
@[simp] theorem EuclideanVector.mul_dy (v : EuclideanVector) (c : ℝ) : (v * c).dy = v.dy * c := rfl
@[simp] theorem EuclideanVector.div_dx (v : EuclideanVector) (c : ℝ) : (v / c).dx = v.dx / c := rfl
@[simp] theorem EuclideanVector.div_dy (v : EuclideanVector) (c : ℝ) : (v / c).dy = v.dy / c := rfl
@[simp] theorem Coordinate.addVec_x (p : Coordinate) (v : EuclideanVector) : (p + v).x = p.x + v.dx := rfl
@[simp] theorem Coordinate.addVec_y (p : Coordinate) (v : EuclideanVector) : (p + v).y = p.y + v.dy := rfl

theorem EuclideanVector.magnitude_nonneg (v : EuclideanVector) : 0 ≤ v.magnitude :=
  Real.sqrt_nonneg _

theorem EuclideanVector.magnitude_scale (v : EuclideanVector) (c : ℝ) :
    (v * c).magnitude = |c| * v.magnitude := by
  unfold EuclideanVector.magnitude
  simp only [EuclideanVector.mul_dx, EuclideanVector.mul_dy]
  rw [show (v.dx * c) ^ 2 + (v.dy * c) ^ 2 = c ^ 2 * (v.dx ^ 2 + v.dy ^ 2) by ring]
  rw [Real.sqrt_mul (sq_nonneg c), Real.sqrt_sq_eq_abs]

theorem EuclideanVector.magnitude_pos (v : EuclideanVector) (h : v.dx ≠ 0 ∨ v.dy ≠ 0) :
    0 < v.magnitude := by
  apply Real.sqrt_pos.2
  rcases h with h | h
  · have h1 : 0 < v.dx ^ 2 := by positivity
    nlinarith [sq_nonneg v.dy]
  · have h1 : 0 < v.dy ^ 2 := by positivity
    nlinarith [sq_nonneg v.dx]

theorem EuclideanVector.versor_eq_scale (v : EuclideanVector) :
    v.versor = v * (v.magnitude)⁻¹ := by
  unfold EuclideanVector.versor
  ext <;> simp [div_eq_mul_inv]

theorem EuclideanVector.versor_magnitude (v : EuclideanVector) (h : 0 < v.magnitude) :
    v.versor.magnitude = 1 := by
  rw [EuclideanVector.versor_eq_scale, EuclideanVector.magnitude_scale,
    abs_inv, abs_of_pos h, inv_mul_cancel₀ (ne_of_gt h)]

/-- C2: `Body::update()` first adds the current velocity to the position —
so the new position uses the velocity from before this tick's forces are
applied — and only then, for each stored force in order, adds `force/mass`
to the velocity with no additional time-step scaling; no other field of
the body changes. -/
theorem body_update_position_then_velocity (b : Body) :
    (b.update).position = b.position + b.velocity ∧
    (b.update).velocity =
      b.forces.foldl (fun (vel force : EuclideanVector) => vel + force / b.mass) b.velocity ∧
    (b.update).name = b.name ∧
    (b.update).mass = b.mass ∧
    (b.update).radius = b.radius ∧
    (b.update).forces = b.forces ∧
    (b.update).highlighted = b.highlighted :=
  ⟨rfl, rfl, rfl, rfl, rfl, rfl, rfl⟩

theorem situation_update_of_paused (s : Situation) (h : s.paused = true) :
    s.update = s := by
  unfold Situation.update
  rw [h]
  simp

/-- C4: while `paused` is true, any number of calls to
`Situation::update()` leaves the entire situation — bodies, marks and the
tick counter included — exactly as before. -/
theorem situation_update_paused_noop (s : Situation) (h : s.paused = true) (k : Nat) :
    Situation.update^[k] s = s := by
  induction k with
  | zero => rfl
  | succ n ih => rw [Function.iterate_succ_apply', ih, situation_update_of_paused s h]

/-- C4 witness: a concrete paused situation is fixed by three updates. -/
theorem situation_update_paused_noop_witness :
    pausedSituation.paused = true ∧ Situation.update^[3] pausedSituation = pausedSituation :=
  ⟨rfl, situation_update_paused_noop pausedSituation rfl 3⟩

/-- C6: the source `impl PartialEq for Body` defines `eq` as
`self == other`, which calls this very `eq` again, so the comparison never
returns within any number of recursive steps — evaluated here on the pair
`(Body::new(), Body::new())`: the fuel-indexed embedding yields `none` for
every fuel, i.e. the function is not terminating, contradicting the claim. -/
theorem body_eq_never_returns : ∀ fuel : Nat, Body.eqFuel fuel Body.new Body.new = none := by
  intro fuel
  induction fuel with
  | zero => rfl
  | succ n ih => simpa [Body.eqFuel] using ih

/-- C1 counterexample: at mass `32π` the source radius `8 ^ 0.33` differs
from the exact cube root `8 ^ (1/3) = 2` the claim asserts. -/
theorem body_with_mass_radius_cex :
    (Body.new.with_mass (32 * Real.pi)).radius ≠
      ((3 / (4 * Real.pi)) * ((32 * Real.pi) / 3)) ^ ((1 : ℝ) / 3) := by
  have hbase : (3 / (4 * Real.pi)) * ((32 * Real.pi) / 3) = (8 : ℝ) := by
    have hpi : Real.pi ≠ 0 := Real.pi_ne_zero
    field_simp
    ring
  have hradius : (Body.new.with_mass (32 * Real.pi)).radius = (8 : ℝ) ^ (0.33 : ℝ) := by
    show ((3 / (4 * Real.pi)) * ((32 * Real.pi) / Body.DENSITY)) ^ (0.33 : ℝ) = _
    rw [show ((32 : ℝ) * Real.pi) / Body.DENSITY = (32 * Real.pi) / 3 from rfl, hbase]
  rw [hradius, hbase]
  have hlt : (8 : ℝ) ^ (0.33 : ℝ) < (8 : ℝ) ^ ((1 : ℝ) / 3) := by
    apply (Real.rpow_lt_rpow_left_iff (by norm_num : (1 : ℝ) < 8)).2
    norm_num
  exact ne_of_lt hlt

/-- C1 (amended): `Body::with_mass(m)` sets the mass to `m` and the radius
to `((3/(4π)) * (m/3)) ^ 0.33` — the source exponent is the literal
`0.33`, an approximation of the cube root, not the exact `1/3`. -/
theorem body_with_mass_sets_mass_and_radius (m : ℝ) :
    (Body.new.with_mass m).mass = m ∧
    (Body.new.with_mass m).radius = ((3 / (4 * Real.pi)) * (m / 3)) ^ (0.33 : ℝ) :=
  ⟨rfl, rfl⟩

theorem between_nonzero_of_ne (p q : Coordinate) (h : p ≠ q) :
    (EuclideanVector.between p q).dx ≠ 0 ∨ (EuclideanVector.between p q).dy ≠ 0 := by
  by_contra hc
  push_neg at hc
  apply h
  ext
  · have := hc.1
    unfold EuclideanVector.between at this
    simp only at this
    linarith
  · have := hc.2
    unfold EuclideanVector.between at this
    simp only at this
    linarith

/-- C3: for bodies at distinct positions with positive masses,
`pull_from(other)` has magnitude `G * m_self * m_other / distance²` and
points along the unit vector from `self` toward `other`, with
`GRAVITATIONAL_CONSTANT = 10`. -/
theorem body_pull_from_newton (b other : Body)
    (hp : b.position ≠ other.position) (hm1 : 0 < b.mass) (hm2 : 0 < other.mass) :
    GRAVITATIONAL_CONSTANT = 10 ∧
    (b.pull_from other).magnitude =
      GRAVITATIONAL_CONSTANT * b.mass * other.mass /
        (EuclideanVector.between b.position other.position).magnitude ^ 2 ∧
    (EuclideanVector.between b.position other.position).versor.magnitude = 1 ∧
    b.pull_from other =
      (EuclideanVector.between b.position other.position).versor *
        (GRAVITATIONAL_CONSTANT * b.mass * other.mass /
          (EuclideanVector.between b.position other.position).magnitude ^ 2) := by
  set j := EuclideanVector.between b.position other.position with hj
  have hd : 0 < j.magnitude :=
    EuclideanVector.magnitude_pos j (between_nonzero_of_ne _ _ hp)
  have hvm : j.versor.magnitude = 1 := EuclideanVector.versor_magnitude j hd
  have hc : 0 < (b.mass * other.mass) / (j.magnitude * j.magnitude) := by positivity
  refine ⟨rfl, ?_, hvm, ?_⟩
  · show ((j.versor * ((b.mass * other.mass) / (j.magnitude * j.magnitude))) *
      GRAVITATIONAL_CONSTANT).magnitude = _
    rw [EuclideanVector.magnitude_scale, EuclideanVector.magnitude_scale, hvm]
    rw [abs_of_pos hc, abs_of_pos (show (0:ℝ) < GRAVITATIONAL_CONSTANT by
      unfold GRAVITATIONAL_CONSTANT; norm_num)]
    rw [sq]
    unfold GRAVITATIONAL_CONSTANT
    ring
  · show (j.versor * ((b.mass * other.mass) / (j.magnitude * j.magnitude))) *
      GRAVITATIONAL_CONSTANT = _
    ext
    · simp only [EuclideanVector.mul_dx]
      rw [sq]
      ring
    · simp only [EuclideanVector.mul_dy]
      rw [sq]
      ring

/-- C3 witness: the theorem applied to concrete bodies at `(0,0)` and
`(3,4)` with masses 1 and 2. -/
theorem body_pull_from_newton_witness :
    bodyAtOrigin.position ≠ bodyAtThreeFour.position ∧
    (0 : ℝ) < bodyAtOrigin.mass ∧ (0 : ℝ) < bodyAtThreeFour.mass ∧
    (GRAVITATIONAL_CONSTANT = 10 ∧
     (bodyAtOrigin.pull_from bodyAtThreeFour).magnitude =
       GRAVITATIONAL_CONSTANT * bodyAtOrigin.mass * bodyAtThreeFour.mass /
         (EuclideanVector.between bodyAtOrigin.position bodyAtThreeFour.position).magnitude ^ 2 ∧
     (EuclideanVector.between bodyAtOrigin.position bodyAtThreeFour.position).versor.magnitude = 1 ∧
     bodyAtOrigin.pull_from bodyAtThreeFour =
       (EuclideanVector.between bodyAtOrigin.position bodyAtThreeFour.position).versor *
         (GRAVITATIONAL_CONSTANT * bodyAtOrigin.mass * bodyAtThreeFour.mass /
           (EuclideanVector.between bodyAtOrigin.position bodyAtThreeFour.position).magnitude ^ 2)) := by
  have hp : bodyAtOrigin.position ≠ bodyAtThreeFour.position := by
    intro h
    have hx : (0 : ℝ) = 3 := congrArg Coordinate.x h
    norm_num at hx
  have hm1 : (0 : ℝ) < bodyAtOrigin.mass := by norm_num [bodyAtOrigin]
  have hm2 : (0 : ℝ) < bodyAtThreeFour.mass := by norm_num [bodyAtThreeFour]
  exact ⟨hp, hm1, hm2, body_pull_from_newton bodyAtOrigin bodyAtThreeFour hp hm1 hm2⟩

theorem track_next_bodies (s : Situation) : (s.track_next).bodies = s.bodies := by
  unfold Situation.track_next
  rcases s.tracked_body with _ | t
  · dsimp only
    split <;> rfl
  · dsimp only
    split <;> rfl

theorem track_next_iterate_bodies (s : Situation) (k : Nat) :
    (Situation.track_next^[k] s).bodies = s.bodies := by
  induction k with
  | zero => rfl
  | succ n ih => rw [Function.iterate_succ_apply', track_next_bodies, ih]

theorem track_next_of_some (s : Situation) (t : Nat) (h : s.tracked_body = some t) :
    (s.track_next).tracked_body =
      if t + 1 < s.bodies.length then some (t + 1) else none := by
  unfold Situation.track_next
  rw [h]
  dsimp only
  split <;> rfl

theorem track_next_of_none (s : Situation) (h : s.tracked_body = none) :
    (s.track_next).tracked_body = if s.bodies.isEmpty then none else some 0 := by
  unfold Situation.track_next
  rw [h]
  dsimp only
  split
  · exact h
  · rfl

theorem track_next_chain (s : Situation) (h : s.tracked_body = none) :
    ∀ k, k < s.bodies.length → (Situation.track_next^[k + 1] s).tracked_body = some k := by
  intro k
  induction k with
  | zero =>
    intro hk
    rw [Function.iterate_one, track_next_of_none s h]
    rw [if_neg]
    simp only [List.isEmpty_iff]
    intro he
    rw [he] at hk
    simp at hk
  | succ n ih =>
    intro hk
    rw [Function.iterate_succ_apply']
    rw [track_next_of_some _ n (ih (Nat.lt_of_succ_lt hk))]
    rw [track_next_iterate_bodies]
    rw [if_pos hk]

/-- C8: `track_next()` on an empty body list leaves the tracked index at
`None`; on `n ≥ 1` bodies, starting from `None`, successive calls yield
`Some 0, ..., Some (n-1)`, then `None` (wrapping to `None` after the last
body rather than back to 0), then `Some 0` again. -/
theorem track_next_cycles (s : Situation) :
    (s.bodies = [] → (s.track_next).tracked_body = none) ∧
    (s.tracked_body = none →
      (∀ k, k < s.bodies.length →
        (Situation.track_next^[k + 1] s).tracked_body = some k) ∧
      (1 ≤ s.bodies.length →
        (Situation.track_next^[s.bodies.length + 1] s).tracked_body = none ∧
        (Situation.track_next^[s.bodies.length + 2] s).tracked_body = some 0)) := by
  constructor
  · intro he
    rcases htb : s.tracked_body with _ | t
    · rw [track_next_of_none s htb, if_pos]
      rw [he]
      rfl
    · rw [track_next_of_some s t htb, if_neg]
      rw [he]
      simp
  · intro htb
    refine ⟨track_next_chain s htb, ?_⟩
    intro hn
    obtain ⟨n, hlen⟩ : ∃ n, s.bodies.length = n + 1 :=
      ⟨s.bodies.length - 1, by omega⟩
    have hnone : (Situation.track_next^[s.bodies.length + 1] s).tracked_body = none := by
      rw [hlen, Function.iterate_succ_apply']
      rw [track_next_of_some _ n (by
        have := track_next_chain s htb n (by omega)
        exact this)]
      rw [track_next_iterate_bodies, if_neg (by omega)]
    refine ⟨hnone, ?_⟩
    rw [show s.bodies.length + 2 = (s.bodies.length + 1) + 1 by omega,
      Function.iterate_succ_apply']
    rw [track_next_of_none _ hnone]
    rw [track_next_iterate_bodies]
    rw [if_neg]
    simp only [List.isEmpty_iff]
    intro he
    rw [he] at hn
    simp at hn

/-- C8 witness: on the concrete three-body situation with nothing tracked,
six successive `track_next()` calls yield
`Some 0, Some 1, Some 2, None, Some 0`. -/
theorem track_next_cycles_witness :
    threeBodySituation.bodies = [Body.new, Body.new, Body.new] ∧
    threeBodySituation.tracked_body = none ∧
    (Situation.track_next^[1] threeBodySituation).tracked_body = some 0 ∧
    (Situation.track_next^[2] threeBodySituation).tracked_body = some 1 ∧
    (Situation.track_next^[3] threeBodySituation).tracked_body = some 2 ∧
    (Situation.track_next^[4] threeBodySituation).tracked_body = none ∧
    (Situation.track_next^[5] threeBodySituation).tracked_body = some 0 := by
  have h := track_next_cycles threeBodySituation
  have htb : threeBodySituation.tracked_body = none := rfl
  have hlen : threeBodySituation.bodies.length = 3 := rfl
  obtain ⟨-, h2⟩ := h
  obtain ⟨hchain, hend⟩ := h2 htb
  obtain ⟨hnone, hwrap⟩ := hend (by rw [hlen]; omega)
  refine ⟨rfl, htb, ?_, ?_, ?_, ?_, ?_⟩
  · exact hchain 0 (by rw [hlen]; omega)
  · exact hchain 1 (by rw [hlen]; omega)
  · exact hchain 2 (by rw [hlen]; omega)
  · rw [show 4 = threeBodySituation.bodies.length + 1 by rw [hlen]] at *
    exact hnone
  · rw [show 5 = threeBodySituation.bodies.length + 2 by rw [hlen]] at *
    exact hwrap

theorem foldl_add_pull_forces_length (l : List Body) (b : Body) :
    (l.foldl Body.add_pull_from b).forces.length = b.forces.length + l.length := by
  induction l generalizing b with
  | nil => simp
  | cons x xs ih =>
    rw [List.foldl_cons, ih]
    simp [Body.add_pull_from]
    omega

theorem tickBody_length (tracked : Option Nat) (mk : Bool)
    (st : List Body × List Mark) (i : Nat) :
    ((Situation.tickBody tracked mk st i).1).length = st.1.length := by
  unfold Situation.tickBody
  cases hg : st.1.get? i <;> simp

theorem tickBody_get_ne (tracked : Option Nat) (mk : Bool)
    (st : List Body × List Mark) (i j : Nat) (hij : i ≠ j) :
    (Situation.tickBody tracked mk st i).1.get? j = st.1.get? j := by
  unfold Situation.tickBody
  cases hg : st.1.get? i
  · rfl
  · exact List.get?_set_ne _ _ hij

theorem tickBody_get_self (tracked : Option Nat) (mk : Bool)
    (st : List Body × List Mark) (i : Nat) (hi : i < st.1.length) :
    ∃ b : Body, (Situation.tickBody tracked mk st i).1.get? i = some b ∧
      b.forces.length = st.1.length - 1 ∧
      b.highlighted = decide (tracked = some i) := by
  obtain ⟨b0, hg⟩ : ∃ b0, st.1.get? i = some b0 :=
    ⟨_, List.get?_eq_get hi⟩
  refine ⟨{ (st.1.take i ++ st.1.drop (i + 1)).foldl Body.add_pull_from
      { b0.update with forces := [] } with
      highlighted := decide (tracked = some i) }, ?_, ?_, ?_⟩
  · unfold Situation.tickBody
    rw [hg]
    exact List.get?_set_eq_of_lt _ hi
  · show ((st.1.take i ++ st.1.drop (i + 1)).foldl Body.add_pull_from
      { b0.update with forces := [] }).forces.length = st.1.length - 1
    rw [foldl_add_pull_forces_length]
    simp only [List.length_append, List.length_take, List.length_drop]
    show 0 + _ = _
    omega
  · rfl

theorem tickBody_marks (tracked : Option Nat) (mk : Bool)
    (st : List Body × List Mark) (i : Nat) :
    ∃ news : List Mark, (Situation.tickBody tracked mk st i).2 = st.2 ++ news ∧
      ∀ m ∈ news, m.age = 0 := by
  unfold Situation.tickBody
  cases hg : st.1.get? i with
  | none => exact ⟨[], by simp, by simp⟩
  | some b =>
    cases mk with
    | false => exact ⟨[], by simp, by simp⟩
    | true =>
      refine ⟨[Mark.new (((st.1.take i ++ st.1.drop (i + 1)).foldl Body.add_pull_from
        { b.update with forces := [] }).position)], ?_, ?_⟩
      · simp
      · intro m hm
        simp only [List.mem_singleton] at hm
        rw [hm]
        rfl

theorem foldTick_length (tracked : Option Nat) (mk : Bool)
    (l : List Nat) (st : List Body × List Mark) :
    ((l.foldl (Situation.tickBody tracked mk) st).1).length = st.1.length := by
  induction l generalizing st with
  | nil => rfl
  | cons a t ih =>
    rw [List.foldl_cons, ih, tickBody_length]

theorem tickInv_step (tracked : Option Nat) (mk : Bool)
    (N i : Nat) (st : List Body × List Mark) (j : Nat)
    (hN : st.1.length = N) (h : tickInv tracked N i st) :
    tickInv tracked N i (Situation.tickBody tracked mk st j) := by
  rcases h with ⟨b, hb, hf, hh⟩
  by_cases hij : j = i
  · subst hij
    have hj : j < st.1.length := by
      rcases List.get?_eq_some.1 hb with ⟨hlt, -⟩
      exact hlt
    obtain ⟨b2, hb2, hf2, hh2⟩ := tickBody_get_self tracked mk st j hj
    exact ⟨b2, hb2, by rw [hf2, hN], hh2⟩
  · exact ⟨b, by rw [tickBody_get_ne tracked mk st j i hij]; exact hb, hf, hh⟩

theorem foldTick_persist (tracked : Option Nat) (mk : Bool)
    (l : List Nat) (st : List Body × List Mark) (N i : Nat)
    (hN : st.1.length = N) (h : tickInv tracked N i st) :
    tickInv tracked N i (l.foldl (Situation.tickBody tracked mk) st) := by
  induction l generalizing st with
  | nil => exact h
  | cons a t ih =>
    rw [List.foldl_cons]
    exact ih _ (by rw [tickBody_length, hN]) (tickInv_step tracked mk N i st a hN h)

theorem foldTick_inv (tracked : Option Nat) (mk : Bool)
    (l : List Nat) (st : List Body × List Mark)
    (hlen : ∀ j ∈ l, j < st.1.length) :
    ∀ i ∈ l, tickInv tracked st.1.length i (l.foldl (Situation.tickBody tracked mk) st) := by
  induction l generalizing st with
  | nil => simp
  | cons a t ih =>
    intro i hi
    rw [List.foldl_cons]
    have hlen' : (Situation.tickBody tracked mk st a).1.length = st.1.length :=
      tickBody_length tracked mk st a
    rcases List.mem_cons.1 hi with rfl | hit
    · have h0 : tickInv tracked st.1.length i (Situation.tickBody tracked mk st i) := by
        obtain ⟨b, hb, hf, hh⟩ :=
          tickBody_get_self tracked mk st i (hlen i (List.mem_cons_self _ _))
        exact ⟨b, hb, hf, hh⟩
      exact foldTick_persist tracked mk t _ _ i hlen' h0
    · have := ih (Situation.tickBody tracked mk st a)
        (fun j hj => by rw [hlen']; exact hlen j (List.mem_cons_of_mem _ hj)) i hit
      rwa [hlen'] at this

theorem foldTick_marks (tracked : Option Nat) (mk : Bool)
    (l : List Nat) (st : List Body × List Mark) :
    ∃ news : List Mark, (l.foldl (Situation.tickBody tracked mk) st).2 = st.2 ++ news ∧
      ∀ m ∈ news, m.age = 0 := by
  induction l generalizing st with
  | nil => exact ⟨[], by simp, by simp⟩
  | cons a t ih =>
    obtain ⟨n1, h1, h1a⟩ := tickBody_marks tracked mk st a
    obtain ⟨n2, h2, h2a⟩ := ih (Situation.tickBody tracked mk st a)
    refine ⟨n1 ++ n2, ?_, ?_⟩
    · rw [List.foldl_cons, h2, h1, List.append_assoc]
    · intro m hm
      rcases List.mem_append.1 hm with hm | hm
      · exact h1a m hm
      · exact h2a m hm

theorem situation_update_not_paused (s : Situation) (h : s.paused = false) :
    s.update =
      { s with
        bodies := ((List.range s.bodies.length).foldl
          (Situation.tickBody s.tracked_body
            (decide (s.updates % (REFRESH_RATE / 10) = 0))) (s.bodies, s.marks)).1
        marks := ((((List.range s.bodies.length).foldl
          (Situation.tickBody s.tracked_body
            (decide (s.updates % (REFRESH_RATE / 10) = 0))) (s.bodies, s.marks)).2).map
            Mark.update).filter (fun m => m.age < TRAIL_HISTORY)
        updates := s.updates + 1 } := by
  unfold Situation.update
  rw [h]
  simp

theorem situation_update_bodies_spec (s : Situation) (h : s.paused = false) :
    (s.update).bodies.length = s.bodies.length ∧
    ∀ i, i < s.bodies.length → ∃ b : Body,
      (s.update).bodies.get? i = some b ∧
      b.forces.length = s.bodies.length - 1 ∧
      b.highlighted = decide (s.tracked_body = some i) := by
  rw [situation_update_not_paused s h]
  constructor
  · exact foldTick_length _ _ _ _
  · intro i hi
    have := foldTick_inv s.tracked_body (decide (s.updates % (REFRESH_RATE / 10) = 0))
      (List.range s.bodies.length) (s.bodies, s.marks)
      (fun j hj => List.mem_range.1 hj) i (List.mem_range.2 hi)
    exact this

/-- C5: after one `Situation::update()` of a non-paused situation with `N`
bodies, every body's force list has length exactly `N - 1`: it was cleared
and rebuilt with one pull per other body. -/
theorem situation_update_forces_count (s : Situation) (h : s.paused = false) :
    ∀ b ∈ (s.update).bodies, b.forces.length = s.bodies.length - 1 := by
  intro b hb
  obtain ⟨i, hgi⟩ := List.mem_iff_get?.1 hb
  have hi : i < (s.update).bodies.length := (List.get?_eq_some.1 hgi).1
  rw [(situation_update_bodies_spec s h).1] at hi
  obtain ⟨b2, hb2, hf2, -⟩ := (situation_update_bodies_spec s h).2 i hi
  rw [hgi] at hb2
  cases hb2
  exact hf2

/-- C5 witness: the theorem applied to the concrete two-body situation. -/
theorem situation_update_forces_count_witness :
    twoBodySituation.paused = false ∧
    ∀ b ∈ (twoBodySituation.update).bodies,
      b.forces.length = twoBodySituation.bodies.length - 1 :=
  ⟨rfl, situation_update_forces_count twoBodySituation rfl⟩

/-- C10: after a non-paused `Situation::update()`, a body is highlighted
exactly when its index is the tracked one — `update` itself establishes
this for every body. -/
theorem situation_update_highlight (s : Situation) (h : s.paused = false) :
    ∀ i b, (s.update).bodies.get? i = some b →
      (b.highlighted = true ↔ s.tracked_body = some i) := by
  intro i b hb
  have hi : i < (s.update).bodies.length := (List.get?_eq_some.1 hb).1
  rw [(situation_update_bodies_spec s h).1] at hi
  obtain ⟨b2, hb2, -, hh2⟩ := (situation_update_bodies_spec s h).2 i hi
  rw [hb] at hb2
  cases hb2
  rw [hh2]
  simp

/-- C10 witness: the theorem applied to the concrete situation tracking
its single body. -/
theorem situation_update_highlight_witness :
    trackedSituation.paused = false ∧
    ∀ i b, (trackedSituation.update).bodies.get? i = some b →
      (b.highlighted = true ↔ trackedSituation.tracked_body = some i) :=
  ⟨rfl, situation_update_highlight trackedSituation rfl⟩

/-- C9: a non-paused `Situation::update()` ages every pre-existing mark by
exactly 1, keeps exactly those aged marks that are still strictly below
`TRAIL_HISTORY` (plus this tick's fresh marks, already at age 1), and
every mark remaining after the update has age strictly below
`TRAIL_HISTORY`. -/
theorem situation_update_marks (s : Situation) (h : s.paused = false) :
    (∀ m ∈ s.marks, (Mark.update m).age = m.age + 1) ∧
    (∃ news : List Mark,
      (s.update).marks =
        ((s.marks.map Mark.update).filter (fun m => m.age < TRAIL_HISTORY)) ++ news ∧
      ∀ m ∈ news, m.age = 1) ∧
    (∀ m ∈ (s.update).marks, m.age < TRAIL_HISTORY) := by
  obtain ⟨news0, hn0, hn0a⟩ := foldTick_marks s.tracked_body
    (decide (s.updates % (REFRESH_RATE / 10) = 0))
    (List.range s.bodies.length) (s.bodies, s.marks)
  have hmarks : (s.update).marks =
      ((s.marks ++ news0).map Mark.update).filter (fun m => m.age < TRAIL_HISTORY) := by
    rw [situation_update_not_paused s h]
    dsimp only
    rw [hn0]
  refine ⟨fun m _ => rfl, ⟨news0.map Mark.update, ?_, ?_⟩, ?_⟩
  · rw [hmarks, List.map_append, List.filter_append]
    congr 1
    apply List.filter_eq_self.2
    intro m hm
    obtain ⟨m0, hm0, rfl⟩ := List.mem_map.1 hm
    have : m0.age = 0 := hn0a m0 hm0
    simp [Mark.update, this, TRAIL_HISTORY]
  · intro m hm
    obtain ⟨m0, hm0, rfl⟩ := List.mem_map.1 hm
    have : m0.age = 0 := hn0a m0 hm0
    simp [Mark.update, this]
  · intro m hm
    rw [hmarks] at hm
    have := List.of_mem_filter hm
    simpa using this

/-- C9 witness: the theorem applied to the concrete situation holding one
mark of age 5. -/
theorem situation_update_marks_witness :
    markedSituation.paused = false ∧
    ((∀ m ∈ markedSituation.marks, (Mark.update m).age = m.age + 1) ∧
     (∃ news : List Mark,
       (markedSituation.update).marks =
         ((markedSituation.marks.map Mark.update).filter
           (fun m => m.age < TRAIL_HISTORY)) ++ news ∧
       ∀ m ∈ news, m.age = 1) ∧
     (∀ m ∈ (markedSituation.update).marks, m.age < TRAIL_HISTORY)) :=
  ⟨rfl, situation_update_marks markedSituation rfl⟩

theorem situation_update_tracked (s : Situation) :
    (s.update).tracked_body = s.tracked_body := by
  unfold Situation.update
  split <;> rfl

theorem situation_update_bodies_length (s : Situation) :
    (s.update).bodies.length = s.bodies.length := by
  unfold Situation.update
  split
  · rfl
  · exact foldTick_length _ _ _ _

theorem op_preserves_trackedInBounds (s : Situation) (op : SituationOp)
    (h : s.trackedInBounds) : (op.apply s).trackedInBounds := by
  cases op with
  | addBody b =>
    intro i hi
    have := h i hi
    show i < (s.bodies ++ [b]).length
    rw [List.length_append]
    omega
  | tick =>
    intro i hi
    simp only [SituationOp.apply] at hi ⊢
    rw [situation_update_tracked] at hi
    rw [situation_update_bodies_length]
    exact h i hi
  | trackNext =>
    intro i hi
    simp only [SituationOp.apply] at hi ⊢
    show i < (s.track_next).bodies.length
    rw [track_next_bodies]
    rcases htb : s.tracked_body with _ | t
    · rw [track_next_of_none s htb] at hi
      split at hi
      · exact absurd hi (by simp)
      · cases hi
        rename_i hne
        rw [List.isEmpty_iff] at hne
        have : s.bodies ≠ [] := hne
        cases hb : s.bodies
        · exact absurd hb this
        · simp [hb]
    · rw [track_next_of_some s t htb] at hi
      split at hi
      · cases hi
        assumption
      · exact absurd hi (by simp)
  | zoomIn => exact fun i hi => h i hi
  | zoomOut => exact fun i hi => h i hi
  | zoomReset => exact fun i hi => h i hi
  | togglePause => exact fun i hi => h i hi
  | dragStarted c => exact fun i hi => h i hi
  | draggingTo c => exact fun i hi => h i hi
  | scrollKey v => exact fun i hi => h i hi

theorem run_preserves_trackedInBounds (l : List SituationOp) (s : Situation)
    (h : s.trackedInBounds) : (Situation.run s l).trackedInBounds := by
  induction l generalizing s with
  | nil => exact h
  | cons op t ih =>
    exact ih (op.apply s) (op_preserves_trackedInBounds s op h)

theorem center_translation_isSome_of_inBounds (s : Situation)
    (h : s.trackedInBounds) : (s.center_translation).isSome = true := by
  unfold Situation.center_translation
  rcases htb : s.tracked_body with _ | t
  · rfl
  · have hlt : t < s.bodies.length := h t htb
    dsimp only
    rw [List.get?_eq_get hlt]
    rfl

/-- C7: in every situation reachable through the public API from
`Situation::new()`, the tracked-body index is `None` or a valid index into
the body list, so the indexing done by `center_translation()` never goes
out of bounds (the embedded `center_translation` never returns `none`). -/
theorem reachable_tracked_in_bounds (ops : List SituationOp) :
    (∀ i, (Situation.run Situation.new ops).tracked_body = some i →
      i < (Situation.run Situation.new ops).bodies.length) ∧
    ((Situation.run Situation.new ops).center_translation).isSome = true := by
  have h0 : Situation.new.trackedInBounds := by
    intro i hi
    exact absurd hi (by simp [Situation.new])
  have h := run_preserves_trackedInBounds ops Situation.new h0
  exact ⟨h, center_translation_isSome_of_inBounds _ h⟩

/-- C7 witness: after adding one body and tracking it, index 0 is in
bounds and `center_translation` is defined. -/
theorem reachable_tracked_in_bounds_witness :
    (Situation.run Situation.new opsForWitness).tracked_body = some 0 ∧
    0 < (Situation.run Situation.new opsForWitness).bodies.length ∧
    ((Situation.run Situation.new opsForWitness).center_translation).isSome = true := by
  have htb : (Situation.run Situation.new opsForWitness).tracked_body = some 0 := by
    show ((Situation.new.add Body.new).track_next).tracked_body = some 0
    rw [track_next_of_none _ rfl]
    rfl
  exact ⟨htb, (reachable_tracked_in_bounds opsForWitness).1 0 htb,
    (reachable_tracked_in_bounds opsForWitness).2⟩

end RsKepler
